import Mathlib

/-!
Verification of the corporate-risk scoring pipeline.

The development shallowly embeds the scoring and attribution code of the
repository (the Flask API in `backend/app.py` and the Streamlit dashboard in
`app.py`) into Lean.  Floating-point values are modelled as rationals; Python
dictionaries are modelled as association lists with unique keys; pandas data
frames are modelled as a column-name list plus a list of rows; exceptions are
modelled with `Except`.  The fitted classifier and scaler are opaque artifacts,
so the model itself appears only as an abstract function, while everything the
repository computes around it (vector building, column alignment,
thresholding, impact ranking, summaries, endpoint control flow) is embedded
definition-by-definition from the source.
-/

namespace CorporateRisk

/-- `THRESHOLD = 0.40` from `backend/app.py` (and the identical local constant
in the dashboard's two tabs). -/
def THRESHOLD : ℚ := 0.40

/-- Single prediction class: `prediction_class = probability > THRESHOLD`
(`backend/app.py`, `predict_single`). -/
def prediction_class (probability : ℚ) : Bool := probability > THRESHOLD

/-- Batch row status: `'HIGH RISK' if risk_score > THRESHOLD else 'Stable'`
(`backend/app.py`, `predict_batch`; same comparison as the dashboard's
`np.where(probabilities > THRESHOLD, 'HIGH RISK', 'Stable')`). -/
def statusOf (risk_score : ℚ) : String :=
  if risk_score > THRESHOLD then "HIGH RISK" else "Stable"

/-! ### Vector builder (single scoring)

`predict_single` starts from the scaler means (`input_values =
scaler.mean_.reshape(1, -1)`; `input_df = pd.DataFrame(input_values,
columns=feature_names)`) and then runs
`for col, value in user_data.items(): if col in input_df.columns:
input_df[col] = value`. -/

/-- Assignment `input_df[col] = value`: every position whose feature name is
`col` receives `value`; guarded by `if col in input_df.columns`. -/
def setColumn (names : List String) (vals : List ℚ) (col : String) (v : ℚ) :
    List ℚ :=
  if col ∈ names then
    (names.zip vals).map (fun p => if p.1 = col then v else p.2)
  else vals

/-- The feature vector `predict_single` builds: means first, then the
`user_data` items folded in by column assignment. -/
def buildSingleVector (names : List String) (means : List ℚ)
    (user_data : List (String × ℚ)) : List ℚ :=
  user_data.foldl (fun acc cv => setColumn names acc cv.1 cv.2) means

/-- First value bound to a key in an association list (a Python dict has each
key at most once). -/
def lookupVal (key : String) : List (String × ℚ) → Option ℚ
  | [] => none
  | (c, v) :: rest => if c = key then some v else lookupVal key rest

/-- Written from the specification's words, for comparison with
`buildSingleVector`: "For each schema position `i`, the output value is
`rawInput[name_i]` if present, else `schema.defaultValue_i`." -/
def specBuildVector (names : List String) (means : List ℚ)
    (rawInput : List (String × ℚ)) : List ℚ :=
  (names.zip means).map (fun p => (lookupVal p.1 rawInput).getD p.2)

lemma mem_keys_of_lookupVal (key : String) (l : List (String × ℚ)) (w : ℚ)
    (h : lookupVal key l = some w) : key ∈ l.map Prod.fst := by
  induction l with
  | nil => simp [lookupVal] at h
  | cons p ps ih =>
    by_cases hp : p.1 = key
    · simp [hp]
    · simp only [lookupVal, hp, if_neg, not_false_iff] at h
      exact List.mem_cons_of_mem _ (ih h)

lemma length_setColumn (names : List String) (vals : List ℚ) (col : String)
    (v : ℚ) (h : names.length = vals.length) :
    (setColumn names vals col v).length = vals.length := by
  unfold setColumn
  split
  · simp [h]
  · rfl

lemma getElem_setColumn (names : List String) (vals : List ℚ) (col : String)
    (v : ℚ) (h : names.length = vals.length) (i : ℕ) (hi : i < vals.length) :
    (setColumn names vals col v).get
        ⟨i, by rw [length_setColumn names vals col v h]; exact hi⟩ =
      if names.get ⟨i, by rw [h]; exact hi⟩ = col then v
      else vals.get ⟨i, hi⟩ := by
  by_cases hmem : col ∈ names
  · simp only [setColumn, if_pos hmem, List.get_eq_getElem, List.getElem_map,
      List.getElem_zip]
  · have hne : names.get ⟨i, by rw [h]; exact hi⟩ ≠ col := by
      intro heq
      have hmm : names.get ⟨i, by rw [h]; exact hi⟩ ∈ names :=
        List.get_mem names i (by rw [h]; exact hi)
      exact hmem (heq ▸ hmm)
    simp only [setColumn, if_neg hmem, List.get_eq_getElem] at hne ⊢
    rw [if_neg hne]

lemma length_buildSingleVector (names : List String) (means : List ℚ)
    (user_data : List (String × ℚ)) (h : names.length = means.length) :
    (buildSingleVector names means user_data).length = means.length := by
  induction user_data generalizing means with
  | nil => rfl
  | cons cv rest ih =>
    have h1 : (setColumn names means cv.1 cv.2).length = means.length :=
      length_setColumn names means cv.1 cv.2 h
    have := ih (setColumn names means cv.1 cv.2) (by rw [h1]; exact h)
    simpa [buildSingleVector, h1] using this

lemma getElem_buildSingleVector (names : List String) (means : List ℚ)
    (user_data : List (String × ℚ)) (h : names.length = means.length)
    (hkeys : (user_data.map Prod.fst).Nodup) (i : ℕ) (hi : i < means.length) :
    (buildSingleVector names means user_data).get
        ⟨i, by rw [length_buildSingleVector names means user_data h]; exact hi⟩ =
      (lookupVal (names.get ⟨i, by rw [h]; exact hi⟩) user_data).getD
        (means.get ⟨i, hi⟩) := by
  induction user_data generalizing means with
  | nil => rfl
  | cons cv rest ih =>
    obtain ⟨c, v⟩ := cv
    have h1 : (setColumn names means c v).length = means.length :=
      length_setColumn names means c v h
    have hkeys' : (rest.map Prod.fst).Nodup := (List.nodup_cons.mp hkeys).2
    have hcnot : c ∉ rest.map Prod.fst := (List.nodup_cons.mp hkeys).1
    have step := ih (setColumn names means c v) (by rw [h1]; exact h) hkeys'
      (by rw [h1]; exact hi)
    have hbuild : buildSingleVector names means ((c, v) :: rest) =
        buildSingleVector names (setColumn names means c v) rest := rfl
    rw [show (buildSingleVector names means ((c, v) :: rest)).get
        ⟨i, by rw [length_buildSingleVector names means ((c, v) :: rest) h]; exact hi⟩ =
        (buildSingleVector names (setColumn names means c v) rest).get
        ⟨i, by
          rw [length_buildSingleVector names (setColumn names means c v) rest
            (by rw [h1]; exact h), h1]
          exact hi⟩ from by
      congr 1]
    rw [step]
    rw [getElem_setColumn names means c v h i hi]
    by_cases hc : names.get ⟨i, by rw [h]; exact hi⟩ = c
    · have hnone : lookupVal (names.get ⟨i, by rw [h]; exact hi⟩) rest = none := by
        rcases hlk : lookupVal (names.get ⟨i, by rw [h]; exact hi⟩) rest with _ | w
        · rfl
        · exact absurd (hc ▸ mem_keys_of_lookupVal _ rest w hlk) hcnot
      simp only [List.get_eq_getElem] at hc hnone ⊢
      rw [hc] at hnone
      simp [lookupVal, hc, hnone]
    · have hc2 : ¬(c = names.get ⟨i, by rw [h]; exact hi⟩) := fun hh => hc hh.symm
      simp only [List.get_eq_getElem] at hc hc2 ⊢
      simp [lookupVal, hc, hc2]

/-! ### Batch aligner

`predict_batch` (and the identical block in the dashboard's batch tab) builds
`mean_matrix = np.tile(scaler.mean_, (n_rows, 1))`, wraps it as `aligned_df =
pd.DataFrame(mean_matrix, columns=feature_names)`, and then runs
`for col in batch_df.columns: if col in aligned_df.columns:
aligned_df[col] = batch_df[col]`.  A table is modelled as its column-name
list `tcols` plus its rows `trows` (each row listing the values in column
order). -/

/-- Entry `(r, j)` of a matrix given as a list of rows (out-of-range reads
default to `0`; all uses are in-range). -/
def entry (M : List (List ℚ)) (r j : ℕ) : ℚ := (M.getD r []).getD j 0

/-- Assignment `aligned_df[col] = batch_df[col]`: in every row `r` of the
matrix, each position whose feature name is `col` receives the value of table
column `k` (the position of `col` among the table's columns) in row `r`. -/
def setMatrixColumn (names : List String) (col : String) (k : ℕ)
    (M trows : List (List ℚ)) : List (List ℚ) :=
  (M.zip trows).map (fun p =>
    (names.zip p.1).map (fun q => if q.1 = col then p.2.getD k 0 else q.2))

/-- The aligned matrix of `predict_batch`: one mean-seeded row per table row,
then every table column whose name is a schema feature copied in. -/
def alignBatch (names : List String) (means : List ℚ) (tcols : List String)
    (trows : List (List ℚ)) : List (List ℚ) :=
  tcols.enum.foldl
    (fun M kc => if kc.2 ∈ names then setMatrixColumn names kc.2 kc.1 M trows
      else M)
    (trows.map (fun _ => means))

/-- Position of a column name in the table's column list. -/
def idxOfStr (key : String) : List String → ℕ
  | [] => 0
  | c :: rest => if c = key then 0 else idxOfStr key rest + 1

/-- Written from the specification's words, for comparison with `alignBatch`:
every matched schema feature takes the table's value for that row, every
unmatched schema feature stays at its default (the scaler mean), row for
row. -/
def specAlignBatch (names : List String) (means : List ℚ)
    (tcols : List String) (trows : List (List ℚ)) : List (List ℚ) :=
  trows.map (fun trow =>
    (names.zip means).map (fun q =>
      if q.1 ∈ tcols then trow.getD (idxOfStr q.1 tcols) 0 else q.2))

/-- First table-position bound to a feature name in an enumerated column
list. -/
def lookupIdx (key : String) : List (ℕ × String) → Option ℕ
  | [] => none
  | (k, c) :: rest => if c = key then some k else lookupIdx key rest

lemma mem_of_lookupIdx (key : String) (l : List (ℕ × String)) (k : ℕ)
    (h : lookupIdx key l = some k) : key ∈ l.map Prod.snd := by
  induction l with
  | nil => simp [lookupIdx] at h
  | cons p ps ih =>
    obtain ⟨k0, c0⟩ := p
    by_cases hp : c0 = key
    · simp [hp]
    · simp only [lookupIdx, hp, if_neg, not_false_iff] at h
      exact List.mem_cons_of_mem _ (ih h)

lemma length_setMatrixColumn (names : List String) (col : String) (k : ℕ)
    (M trows : List (List ℚ)) (hM : M.length = trows.length) :
    (setMatrixColumn names col k M trows).length = M.length := by
  simp [setMatrixColumn, hM]

lemma rowlen_setMatrixColumn (names : List String) (col : String) (k : ℕ)
    (M trows : List (List ℚ)) (hM : M.length = trows.length)
    (hrow : ∀ r, r < M.length → (M.getD r []).length = names.length)
    (r : ℕ) (hr : r < M.length) :
    ((setMatrixColumn names col k M trows).getD r []).length = names.length := by
  have hzl : ((M.zip trows).map (fun p =>
      (names.zip p.1).map
        (fun q => if q.1 = col then p.2.getD k 0 else q.2))).length =
      M.length := by
    simp [List.length_zip, hM]
  have hr' : r < ((M.zip trows).map (fun p =>
      (names.zip p.1).map
        (fun q => if q.1 = col then p.2.getD k 0 else q.2))).length := by
    rw [hzl]; exact hr
  rw [setMatrixColumn, List.getD_eq_getElem _ _ hr', List.getElem_map,
    List.getElem_zip]
  have hlen := hrow r hr
  rw [List.getD_eq_getElem _ _ hr] at hlen
  simp [List.length_zip, hlen]

lemma entry_setMatrixColumn (names : List String) (col : String) (k : ℕ)
    (M trows : List (List ℚ)) (hM : M.length = trows.length)
    (hrow : ∀ r, r < M.length → (M.getD r []).length = names.length)
    (r j : ℕ) (hr : r < M.length) (hj : j < names.length) :
    entry (setMatrixColumn names col k M trows) r j =
      if names.getD j "" = col then (trows.getD r []).getD k 0
      else entry M r j := by
  have hzl : ((M.zip trows).map (fun p =>
      (names.zip p.1).map
        (fun q => if q.1 = col then p.2.getD k 0 else q.2))).length =
      M.length := by
    simp [List.length_zip, hM]
  have hr' : r < ((M.zip trows).map (fun p =>
      (names.zip p.1).map
        (fun q => if q.1 = col then p.2.getD k 0 else q.2))).length := by
    rw [hzl]; exact hr
  have hlen := hrow r hr
  rw [List.getD_eq_getElem _ _ hr] at hlen
  have hrt : r < trows.length := hM ▸ hr
  unfold entry setMatrixColumn
  rw [List.getD_eq_getElem _ _ hr', List.getElem_map, List.getElem_zip]
  have hj' : j < ((names.zip (M[r])).map
      (fun q => if q.1 = col then (trows[r]).getD k 0 else q.2)).length := by
    simp [List.length_zip, hlen]
    omega
  rw [show ((names.zip ((M[r], trows[r]) : List ℚ × List ℚ).1).map
      (fun q => if q.1 = col then ((M[r], trows[r]) : List ℚ × List ℚ).2.getD k 0
        else q.2)) =
      ((names.zip (M[r])).map
        (fun q => if q.1 = col then (trows[r]).getD k 0 else q.2)) from rfl]
  rw [List.getD_eq_getElem _ _ hj', List.getElem_map, List.getElem_zip]
  rw [List.getD_eq_getElem names "" hj, List.getD_eq_getElem M [] hr,
    List.getD_eq_getElem trows [] hrt,
    List.getD_eq_getElem (M[r]) 0 (by rw [hlen]; exact hj)]

lemma foldAlign (names : List String) (trows : List (List ℚ))
    (ecs : List (ℕ × String)) :
    ∀ (M : List (List ℚ)), M.length = trows.length →
    (∀ r, r < M.length → (M.getD r []).length = names.length) →
    (ecs.map Prod.snd).Nodup →
    (ecs.foldl (fun M kc =>
        if kc.2 ∈ names then setMatrixColumn names kc.2 kc.1 M trows
        else M) M).length = trows.length ∧
    (∀ r, r < trows.length →
      ((ecs.foldl (fun M kc =>
          if kc.2 ∈ names then setMatrixColumn names kc.2 kc.1 M trows
          else M) M).getD r []).length = names.length) ∧
    (∀ r, r < trows.length → ∀ j, j < names.length →
      entry (ecs.foldl (fun M kc =>
          if kc.2 ∈ names then setMatrixColumn names kc.2 kc.1 M trows
          else M) M) r j =
        ((lookupIdx (names.getD j "") ecs).map
          (fun k => (trows.getD r []).getD k 0)).getD (entry M r j)) := by
  induction ecs with
  | nil =>
    intro M hM hrow _
    refine ⟨hM, ?_, ?_⟩
    · intro r hr
      exact hrow r (by rw [hM]; exact hr)
    · intro r _ j _
      simp [lookupIdx]
  | cons kc ecs ih =>
    intro M hM hrow hnodup
    obtain ⟨k, c⟩ := kc
    have hnodup2 : (c :: ecs.map Prod.snd).Nodup := by
      simpa only [List.map_cons] using hnodup
    obtain ⟨hc_not, hnodup'⟩ := List.nodup_cons.mp hnodup2
    by_cases hmem : c ∈ names
    · have hM' : (setMatrixColumn names c k M trows).length = trows.length := by
        rw [length_setMatrixColumn names c k M trows hM, hM]
      have hrow' : ∀ r, r < (setMatrixColumn names c k M trows).length →
          ((setMatrixColumn names c k M trows).getD r []).length =
            names.length := by
        intro r hr
        exact rowlen_setMatrixColumn names c k M trows hM hrow r
          (by rw [← length_setMatrixColumn names c k M trows hM]; exact hr)
      obtain ⟨ih1, ih2, ih3⟩ := ih (setMatrixColumn names c k M trows) hM'
        hrow' hnodup'
      have hfold : ((k, c) :: ecs).foldl (fun M kc =>
          if kc.2 ∈ names then setMatrixColumn names kc.2 kc.1 M trows
          else M) M =
          ecs.foldl (fun M kc =>
            if kc.2 ∈ names then setMatrixColumn names kc.2 kc.1 M trows
            else M) (setMatrixColumn names c k M trows) := by
        simp [List.foldl_cons, hmem]
      refine ⟨by rw [hfold]; exact ih1, by rw [hfold]; exact ih2, ?_⟩
      intro r hr j hj
      rw [hfold, ih3 r hr j hj]
      by_cases hcj : c = names.getD j ""
      · have hnone : lookupIdx (names.getD j "") ecs = none := by
          rcases hlk : lookupIdx (names.getD j "") ecs with _ | w
          · rfl
          · exact absurd (hcj ▸ mem_of_lookupIdx _ ecs w hlk) hc_not
        have hcons : lookupIdx (names.getD j "") ((k, c) :: ecs) = some k := by
          simp [lookupIdx, hcj]
        rw [hnone, hcons]
        simp only [Option.map_none', Option.getD_none, Option.map_some',
          Option.getD_some]
        rw [entry_setMatrixColumn names c k M trows hM hrow r j
          (by rw [hM]; exact hr) hj]
        rw [if_pos hcj.symm]
      · have hcons : lookupIdx (names.getD j "") ((k, c) :: ecs) =
            lookupIdx (names.getD j "") ecs := by
          show (if c = names.getD j "" then some k
            else lookupIdx (names.getD j "") ecs) = _
          rw [if_neg hcj]
        rw [hcons]
        rcases hlk : lookupIdx (names.getD j "") ecs with _ | w
        · simp only [Option.map_none', Option.getD_none]
          rw [entry_setMatrixColumn names c k M trows hM hrow r j
            (by rw [hM]; exact hr) hj]
          rw [if_neg (fun hh => hcj hh.symm)]
        · simp only [Option.map_some', Option.getD_some]
    · have hfold : ((k, c) :: ecs).foldl (fun M kc =>
          if kc.2 ∈ names then setMatrixColumn names kc.2 kc.1 M trows
          else M) M =
          ecs.foldl (fun M kc =>
            if kc.2 ∈ names then setMatrixColumn names kc.2 kc.1 M trows
            else M) M := by
        simp [List.foldl_cons, hmem]
      obtain ⟨ih1, ih2, ih3⟩ := ih M hM hrow hnodup'
      refine ⟨by rw [hfold]; exact ih1, by rw [hfold]; exact ih2, ?_⟩
      intro r hr j hj
      rw [hfold, ih3 r hr j hj]
      have hcj : ¬(c = names.getD j "") := by
        intro hh
        apply hmem
        rw [hh]
        rw [List.getD_eq_getElem names "" hj]
        exact List.getElem_mem hj
      have hcons : lookupIdx (names.getD j "") ((k, c) :: ecs) =
          lookupIdx (names.getD j "") ecs := by
        show (if c = names.getD j "" then some k
          else lookupIdx (names.getD j "") ecs) = _
        rw [if_neg hcj]
      rw [hcons]

lemma lookupIdx_enumFrom (key : String) (l : List String) :
    ∀ s : ℕ, lookupIdx key (List.enumFrom s l) =
      if key ∈ l then some (s + idxOfStr key l) else none := by
  induction l with
  | nil =>
    intro s
    simp [lookupIdx]
  | cons c rest ih =>
    intro s
    rw [List.enumFrom_cons]
    by_cases hc : c = key
    · have hstep : lookupIdx key ((s, c) :: List.enumFrom (s + 1) rest) =
          some s := by
        show (if c = key then some s
          else lookupIdx key (List.enumFrom (s + 1) rest)) = _
        rw [if_pos hc]
      have hidx : idxOfStr key (c :: rest) = 0 := by
        show (if c = key then 0 else idxOfStr key rest + 1) = _
        rw [if_pos hc]
      rw [hstep, if_pos (by rw [← hc]; exact List.mem_cons_self c rest), hidx]
      congr 1
    · have hstep : lookupIdx key ((s, c) :: List.enumFrom (s + 1) rest) =
          lookupIdx key (List.enumFrom (s + 1) rest) := by
        show (if c = key then some s
          else lookupIdx key (List.enumFrom (s + 1) rest)) = _
        rw [if_neg hc]
      have hidx : idxOfStr key (c :: rest) = idxOfStr key rest + 1 := by
        show (if c = key then 0 else idxOfStr key rest + 1) = _
        rw [if_neg hc]
      rw [hstep, ih (s + 1), hidx]
      by_cases hr : key ∈ rest
      · rw [if_pos hr, if_pos (List.mem_cons_of_mem _ hr)]
        congr 1
        omega
      · have hnc : key ∉ c :: rest := by
          intro hin
          rcases List.mem_cons.mp hin with hq | hq
          · exact hc hq.symm
          · exact hr hq
        rw [if_neg hr, if_neg hnc]

lemma lookupIdx_enum (key : String) (l : List String) :
    lookupIdx key l.enum =
      if key ∈ l then some (idxOfStr key l) else none := by
  have := lookupIdx_enumFrom key l 0
  simpa [List.enum] using this

lemma alignBatch_facts (names : List String) (means : List ℚ)
    (tcols : List String) (trows : List (List ℚ))
    (h : names.length = means.length) (hcols : tcols.Nodup) :
    (alignBatch names means tcols trows).length = trows.length ∧
    (∀ r, r < trows.length →
      ((alignBatch names means tcols trows).getD r []).length =
        names.length) ∧
    (∀ r, r < trows.length → ∀ j, j < names.length →
      entry (alignBatch names means tcols trows) r j =
        if names.getD j "" ∈ tcols then
          (trows.getD r []).getD (idxOfStr (names.getD j "") tcols) 0
        else means.getD j 0) := by
  obtain ⟨h1, h2, h3⟩ := foldAlign names trows tcols.enum
    (trows.map (fun _ => means))
    (List.length_map _ _)
    (by
      intro r hr
      rw [List.length_map] at hr
      have hrM : r < (trows.map (fun _ : List ℚ => means)).length := by
        rw [List.length_map]; exact hr
      rw [List.getD_eq_getElem _ _ hrM, List.getElem_map]
      exact h.symm)
    (by rw [List.enum_map_snd]; exact hcols)
  refine ⟨h1, h2, ?_⟩
  intro r hr j hj
  have hM0 : entry (trows.map (fun _ => means)) r j = means.getD j 0 := by
    have hrM : r < (trows.map (fun _ : List ℚ => means)).length := by
      rw [List.length_map]; exact hr
    unfold entry
    rw [List.getD_eq_getElem _ _ hrM, List.getElem_map]
  rw [show entry (alignBatch names means tcols trows) r j =
      entry (tcols.enum.foldl (fun M kc =>
        if kc.2 ∈ names then setMatrixColumn names kc.2 kc.1 M trows else M)
        (trows.map (fun _ => means))) r j from rfl,
    h3 r hr j hj, lookupIdx_enum]
  by_cases hmem : names.getD j "" ∈ tcols
  · rw [if_pos hmem, if_pos hmem]
    simp only [Option.map_some', Option.getD_some]
  · rw [if_neg hmem, if_neg hmem]
    simp only [Option.map_none', Option.getD_none]
    exact hM0

lemma entry_specAlignBatch (names : List String) (means : List ℚ)
    (tcols : List String) (trows : List (List ℚ))
    (h : names.length = means.length) (r j : ℕ)
    (hr : r < trows.length) (hj : j < names.length) :
    entry (specAlignBatch names means tcols trows) r j =
      if names.getD j "" ∈ tcols then
        (trows.getD r []).getD (idxOfStr (names.getD j "") tcols) 0
      else means.getD j 0 := by
  have hrM : r < (trows.map (fun trow =>
      (names.zip means).map (fun q =>
        if q.1 ∈ tcols then trow.getD (idxOfStr q.1 tcols) 0
        else q.2))).length := by
    rw [List.length_map]; exact hr
  unfold entry specAlignBatch
  rw [List.getD_eq_getElem _ _ hrM, List.getElem_map]
  have hj2 : j < ((names.zip means).map (fun q =>
      if q.1 ∈ tcols then (trows[r]).getD (idxOfStr q.1 tcols) 0
      else q.2)).length := by
    rw [List.length_map, List.length_zip]
    omega
  rw [List.getD_eq_getElem _ _ hj2, List.getElem_map, List.getElem_zip]
  have hjm : j < means.length := by rw [← h]; exact hj
  rw [List.getD_eq_getElem names "" hj, List.getD_eq_getElem trows [] hr,
    List.getD_eq_getElem means 0 hjm]

lemma specAlignBatch_rowlen (names : List String) (means : List ℚ)
    (tcols : List String) (trows : List (List ℚ))
    (h : names.length = means.length) (r : ℕ) (hr : r < trows.length) :
    ((specAlignBatch names means tcols trows).getD r []).length =
      names.length := by
  unfold specAlignBatch
  rw [List.getD_eq_getElem _ _ (by rw [List.length_map]; exact hr),
    List.getElem_map, List.length_map, List.length_zip]
  omega

lemma alignBatch_eq_spec (names : List String) (means : List ℚ)
    (tcols : List String) (trows : List (List ℚ))
    (h : names.length = means.length) (hcols : tcols.Nodup) :
    alignBatch names means tcols trows =
      specAlignBatch names means tcols trows := by
  obtain ⟨h1, h2, h3⟩ := alignBatch_facts names means tcols trows h hcols
  have hspec_len : (specAlignBatch names means tcols trows).length =
      trows.length := List.length_map _ _
  apply List.ext_get (by rw [h1, hspec_len])
  intro r hr1 hr2
  have hrT : r < trows.length := by rw [← h1]; exact hr1
  have hrowA : ((alignBatch names means tcols trows).get ⟨r, hr1⟩).length =
      names.length := by
    have := h2 r hrT
    rw [List.getD_eq_getElem _ _ hr1] at this
    exact this
  have hrowS : ((specAlignBatch names means tcols trows).get ⟨r, hr2⟩).length =
      names.length := by
    have := specAlignBatch_rowlen names means tcols trows h r hrT
    rw [List.getD_eq_getElem _ _ hr2] at this
    exact this
  apply List.ext_get (by rw [hrowA, hrowS])
  intro j hj1 hj2
  have hjN : j < names.length := by rw [← hrowA]; exact hj1
  have hA : ((alignBatch names means tcols trows).get ⟨r, hr1⟩).get ⟨j, hj1⟩ =
      entry (alignBatch names means tcols trows) r j := by
    unfold entry
    rw [List.getD_eq_getElem _ _ hr1,
      List.getD_eq_getElem _ _ (by rw [show ((alignBatch names means tcols
        trows)[r]).length = names.length from hrowA]; exact hjN)]
    rfl
  have hS : ((specAlignBatch names means tcols trows).get ⟨r, hr2⟩).get
      ⟨j, hj2⟩ = entry (specAlignBatch names means tcols trows) r j := by
    unfold entry
    rw [List.getD_eq_getElem _ _ hr2,
      List.getD_eq_getElem _ _ (by rw [show ((specAlignBatch names means tcols
        trows)[r]).length = names.length from hrowS]; exact hjN)]
    rfl
  rw [hA, hS, h3 r hrT j hjN,
    entry_specAlignBatch names means tcols trows h r j hrT hjN]

/-- One entry of the `results` list `predict_batch` returns: built row by row
from `batch_df.iterrows()` as `id = i + 1`, `riskScore = probabilities[i]`,
`status` from the threshold comparison, and `data = row.to_dict()` (the
original row, every uploaded column included). -/
structure RowResult where
  id : ℕ
  riskScore : ℚ
  status : String
  data : List ℚ
  deriving DecidableEq

/-- The `results` list of `predict_batch`. -/
def batchResults (trows : List (List ℚ)) (probabilities : List ℚ) :
    List RowResult :=
  trows.enum.map (fun p =>
    { id := p.1 + 1
      riskScore := probabilities.getD p.1 0
      status := statusOf (probabilities.getD p.1 0)
      data := p.2 })

lemma batchResults_data (trows : List (List ℚ)) (probabilities : List ℚ) :
    (batchResults trows probabilities).map RowResult.data = trows := by
  unfold batchResults
  rw [List.map_map]
  rw [show (RowResult.data ∘ fun p : ℕ × List ℚ =>
      ({ id := p.1 + 1, riskScore := probabilities.getD p.1 0,
         status := statusOf (probabilities.getD p.1 0),
         data := p.2 } : RowResult)) = Prod.snd from rfl]
  exact List.enum_map_snd trows

lemma batchResults_ids (trows : List (List ℚ)) (probabilities : List ℚ) :
    (batchResults trows probabilities).map RowResult.id =
      (List.range trows.length).map (fun i => i + 1) := by
  unfold batchResults
  rw [List.map_map]
  rw [show (RowResult.id ∘ fun p : ℕ × List ℚ =>
      ({ id := p.1 + 1, riskScore := probabilities.getD p.1 0,
         status := statusOf (probabilities.getD p.1 0),
         data := p.2 } : RowResult)) =
      (fun i => i + 1) ∘ (Prod.fst : ℕ × List ℚ → ℕ) from rfl]
  rw [← List.map_map, List.enum_map_fst]

/-! ### Batch summary

`predict_batch` aggregates `totalCompanies = len(results)`,
`high_risk_count = sum(1 for r in results if r['status'] == 'HIGH RISK')`,
`stableCount = len(results) - high_risk_count`, and
`avg_risk = float(probabilities.mean())`. -/

/-- `numpy`'s `.mean()`: NaN on an empty array (modelled as `none`), the
arithmetic mean otherwise.  There is no explicit zero-row branch anywhere in
`predict_batch`; the NaN simply flows into the response. -/
def npMean (l : List ℚ) : Option ℚ :=
  if l.length = 0 then none else some (l.sum / l.length)

/-- The `summary` object of the `predict_batch` response. -/
structure BatchSummary where
  totalCompanies : ℕ
  highRiskCount : ℕ
  stableCount : ℕ
  averageRisk : Option ℚ
  deriving DecidableEq

/-- The summary exactly as `predict_batch` computes it from `results` and
`probabilities`. -/
def batchSummary (trows : List (List ℚ)) (probabilities : List ℚ) :
    BatchSummary :=
  { totalCompanies := (batchResults trows probabilities).length
    highRiskCount := (batchResults trows probabilities).countP
      (fun r => r.status = "HIGH RISK")
    stableCount := (batchResults trows probabilities).length -
      (batchResults trows probabilities).countP
        (fun r => r.status = "HIGH RISK")
    averageRisk := npMean probabilities }

lemma batchResults_length (trows : List (List ℚ)) (probabilities : List ℚ) :
    (batchResults trows probabilities).length = trows.length := by
  unfold batchResults
  rw [List.length_map, List.enum_length]

/-! ### Fallback attribution (backend single scoring)

`predict_single` computes a "simplified SHAP-like analysis": for each schema
feature the caller supplied, `impact = (user_data[name] − scaler.mean_[i]) *
0.1`; the list is sorted by `abs(impact)` descending (Python's stable sort
with `reverse=True`) and truncated to `[:5]`.  The JSON response has exactly
the keys `probability`, `isHighRisk`, `threshold`, `featureImpacts`. -/

/-- One element of the `feature_impacts` list of `predict_single`. -/
structure FeatureImpact where
  feature : String
  value : ℚ
  impact : ℚ
  deriving DecidableEq

/-- The `feature_impacts` loop of `predict_single`: one entry per schema
feature present in `user_data`, with the deviation-times-0.1 impact. -/
def feature_impacts (names : List String) (means : List ℚ)
    (user_data : List (String × ℚ)) : List FeatureImpact :=
  names.enum.filterMap (fun p =>
    match lookupVal p.2 user_data with
    | some v =>
      some { feature := p.2
             value := v
             impact := (v - means.getD p.1 0) * 0.1 }
    | none => none)

/-- `feature_impacts.sort(key=lambda x: abs(x['impact']), reverse=True)`:
a stable sort, descending by absolute impact. -/
def sortImpacts (impacts : List FeatureImpact) : List FeatureImpact :=
  impacts.mergeSort (fun a b => |b.impact| ≤ |a.impact|)

/-- `feature_impacts[:5]` after sorting — what the response returns. -/
def topImpacts (names : List String) (means : List ℚ)
    (user_data : List (String × ℚ)) : List FeatureImpact :=
  (sortImpacts (feature_impacts names means user_data)).take 5

/-- The keys of the JSON object `predict_single` returns on success. -/
def predictSingleResponseKeys : List String :=
  ["probability", "isHighRisk", "threshold", "featureImpacts"]

lemma enumFrom_pair_idx :
    ∀ (l : List String), l.Nodup → ∀ (s i : ℕ) (name : String),
      (i, name) ∈ List.enumFrom s l → name ∈ l ∧ s + idxOfStr name l = i := by
  intro l
  induction l with
  | nil =>
    intro _ s i name hmem
    simp [List.enumFrom] at hmem
  | cons c rest ih =>
    intro hnd s i name hmem
    obtain ⟨hc_not, hnd2⟩ := List.nodup_cons.mp hnd
    rw [List.enumFrom_cons] at hmem
    rcases List.mem_cons.mp hmem with heq | hmem2
    · obtain ⟨hi, hn⟩ := Prod.mk.injEq .. ▸ heq
      refine ⟨by rw [hn]; exact List.mem_cons_self c rest, ?_⟩
      have hidx : idxOfStr name (c :: rest) = 0 := by
        show (if c = name then 0 else idxOfStr name rest + 1) = 0
        rw [if_pos hn.symm]
      rw [hidx]
      omega
    · obtain ⟨hmem_rest, hidx⟩ := ih hnd2 (s + 1) i name hmem2
      refine ⟨List.mem_cons_of_mem _ hmem_rest, ?_⟩
      have hc_ne : c ≠ name := fun hh => hc_not (hh ▸ hmem_rest)
      have hstep : idxOfStr name (c :: rest) = idxOfStr name rest + 1 := by
        show (if c = name then 0 else idxOfStr name rest + 1) = _
        rw [if_neg hc_ne]
      rw [hstep]
      omega

lemma enum_pair_idx (l : List String) (hnd : l.Nodup) (i : ℕ) (name : String)
    (hmem : (i, name) ∈ l.enum) : name ∈ l ∧ idxOfStr name l = i := by
  obtain ⟨h1, h2⟩ := enumFrom_pair_idx l hnd 0 i name
    (by simpa [List.enum] using hmem)
  exact ⟨h1, by omega⟩

lemma mem_feature_impacts (names : List String) (means : List ℚ)
    (user_data : List (String × ℚ)) (hnd : names.Nodup) (imp : FeatureImpact)
    (hmem : imp ∈ feature_impacts names means user_data) :
    imp.feature ∈ names ∧
      lookupVal imp.feature user_data = some imp.value ∧
      imp.impact =
        (imp.value - means.getD (idxOfStr imp.feature names) 0) * 0.1 := by
  unfold feature_impacts at hmem
  rw [List.mem_filterMap] at hmem
  obtain ⟨p, hp_mem, hp_eq⟩ := hmem
  obtain ⟨i, name⟩ := p
  rcases hlk : lookupVal name user_data with _ | v
  · rw [hlk] at hp_eq
    simp at hp_eq
  · rw [hlk] at hp_eq
    have himp : imp = { feature := name
                        value := v
                        impact := (v - means.getD i 0) * 0.1 } :=
      (Option.some.inj hp_eq).symm
    obtain ⟨hn_mem, hidx⟩ := enum_pair_idx names hnd i name hp_mem
    rw [himp]
    exact ⟨hn_mem, hlk, by rw [hidx]⟩

/-! ### Endpoint control flow

Fallible Python computations are embedded as `Except String` values: a thrown
exception is `.error msg`.  `predict_single`'s whole body — vector build,
scaling, prediction AND the feature-impact computation — sits inside one
`try/except Exception` that answers `{'error': str(e)}, 400`; the dashboard's
single simulator instead wraps only the SHAP block in its own `try/except`
and shows `st.warning(f"Could not generate SHAP explanation: {e}")` while the
probability panel is rendered unconditionally. -/

/-- The JSON object `predict_single` returns on success. -/
structure SingleResponse where
  probability : ℚ
  isHighRisk : Bool
  threshold : ℚ
  featureImpacts : List FeatureImpact
  deriving DecidableEq

/-- The try/except body of `predict_single`: scoring first, then attribution;
an exception in either place aborts the whole request with only the error
message — nothing computed before it survives into the response. -/
def predict_single_flow (scoring : Except String ℚ)
    (attribution : ℚ → Except String (List FeatureImpact)) :
    Except String SingleResponse :=
  match scoring with
  | .error e => .error e
  | .ok probability =>
    match attribution probability with
    | .error e => .error e
    | .ok impacts =>
      .ok { probability := probability
            isHighRisk := prediction_class probability
            threshold := THRESHOLD
            featureImpacts := impacts }

/-- What the dashboard's single simulator shows after the model has produced
a probability: the score panel always, the SHAP chart only if the SHAP
computation succeeded, a warning with the error message otherwise. -/
structure RenderedSingle where
  probability : ℚ
  isHighRisk : Bool
  shapChart : Option (List ℚ)
  warning : Option String
  deriving DecidableEq

/-- The dashboard flow: the SHAP block has its own `try/except`, so its
outcome only switches chart vs. warning. -/
def render_single (probability : ℚ)
    (shap_computation : Except String (List ℚ)) : RenderedSingle :=
  { probability := probability
    isHighRisk := prediction_class probability
    shapChart :=
      match shap_computation with
      | .ok sv => some sv
      | .error _ => none
    warning :=
      match shap_computation with
      | .ok _ => none
      | .error e => some ("Could not generate SHAP explanation: " ++ e) }

/-- An HTTP route outcome: a success payload or an error body, each with its
status code. -/
inductive RouteResult (α : Type) where
  | ok (httpStatus : ℕ) (value : α)
  | err (httpStatus : ℕ) (message : String)

/-- `predict_single`'s route guard: `if model is None: return
jsonify({'error': 'Model not loaded'}), 500` before anything else runs; the
body answers 200 on success and 400 on exception. -/
def predict_single_route {M : Type} (model : Option M)
    (body : M → Except String SingleResponse) : RouteResult SingleResponse :=
  match model with
  | none => .err 500 "Model not loaded"
  | some m =>
    match body m with
    | .ok r => .ok 200 r
    | .error e => .err 400 e

/-- `predict_batch`'s identical route guard. -/
def predict_batch_route {M : Type} (model : Option M)
    (body : M → Except String (List RowResult × BatchSummary)) :
    RouteResult (List RowResult × BatchSummary) :=
  match model with
  | none => .err 500 "Model not loaded"
  | some m =>
    match body m with
    | .ok r => .ok 200 r
    | .error e => .err 400 e

/-- The dashboard either runs with a loaded model or stops at startup. -/
inductive AppState (M : Type) where
  | stopped (errorMessage : String)
  | running (model : M)

/-- The dashboard's startup: `load_data()` inside `try/except
FileNotFoundError`, with `st.error(...)` then `st.stop()` on failure — no
scoring code is reachable in the stopped state. -/
def dashboard_start {M : Type} (load_result : Except String M) : AppState M :=
  match load_result with
  | .error _ => .stopped
      "⚠️ Model file not found. Ensure 'models/financial_risk_model.pkl' is in the directory."
  | .ok m => .running m

/-- The `/api/health` endpoint's response body. -/
structure HealthResponse where
  status : String
  model_loaded : Bool
  deriving DecidableEq

/-- `health_check`: unconditionally `jsonify({'status': 'healthy',
'model_loaded': model is not None})`, HTTP 200 (Flask's default code). -/
def health_check (model_loaded : Bool) : ℕ × HealthResponse :=
  (200, { status := "healthy", model_loaded := model_loaded })

/-! ### Exact attribution (tree-ensemble Shapley values)

The dashboard's exact strategy is `explainer = shap.TreeExplainer(model);
shap_values = explainer.shap_values(input_scaled)`; the algorithm itself
lives in the external `shap` library, not in this repository. -/

/-- Modelled from the spec: the marginal contribution of the feature at
position `k` of an ordering `L` — the change in coalition value when that
feature is revealed after the features preceding it in `L`. -/
def marginalContribution (n : ℕ) (v : Finset (Fin n) → ℚ)
    (L : List (Fin n)) (k : ℕ) : ℚ :=
  v ((L.take (k + 1)).toFinset) - v ((L.take k).toFinset)

/-- Modelled from the spec: the "standard exact Shapley-value decomposition
for tree ensembles" that `shap.TreeExplainer(model).shap_values` computes —
the `shap` library's algorithm is absent from this repository's sources.
`v S` is the coalition value: the model's expected output when exactly the
features in `S` are fixed to the scored vector's values, so `v univ` is the
predicted probability on the full vector and `v ∅` the baseline expected
value over the training distribution.  The Shapley value of feature `i` is
its marginal contribution averaged over all feature orderings. -/
def shapleyValue (n : ℕ) (v : Finset (Fin n) → ℚ) (i : Fin n) : ℚ :=
  ((List.finRange n).permutations.map
    (fun L => marginalContribution n v L (L.indexOf i))).sum /
    (((List.finRange n).permutations.length : ℚ))

lemma toFinset_of_perm_finRange (n : ℕ) (L : List (Fin n))
    (hp : L.Perm (List.finRange n)) : L.toFinset = Finset.univ := by
  apply Finset.eq_univ_iff_forall.mpr
  intro i
  rw [List.mem_toFinset]
  exact hp.mem_iff.mpr (List.mem_finRange i)

lemma sum_marginal_perm (n : ℕ) (v : Finset (Fin n) → ℚ) (L : List (Fin n))
    (hp : L.Perm (List.finRange n)) :
    ∑ i : Fin n, marginalContribution n v L (L.indexOf i) =
      v Finset.univ - v ∅ := by
  have hlen : L.length = n := by rw [hp.length_eq, List.length_finRange]
  have hnd : L.Nodup := hp.nodup_iff.mpr (List.nodup_finRange n)
  have hbij : ∑ i : Fin n, marginalContribution n v L (L.indexOf i) =
      ∑ k ∈ Finset.range n, marginalContribution n v L k := by
    apply Finset.sum_bij'
      (fun (i : Fin n) (_ : i ∈ Finset.univ) => L.indexOf i)
      (fun (k : ℕ) (hk : k ∈ Finset.range n) =>
        L.get ⟨k, by rw [hlen]; exact Finset.mem_range.mp hk⟩)
    case hi =>
      intro i _
      rw [Finset.mem_range]
      have h1 : List.indexOf i L < L.length :=
        List.indexOf_lt_length.mpr (hp.mem_iff.mpr (List.mem_finRange i))
      omega
    case hj =>
      intro k _
      exact Finset.mem_univ _
    case left_inv =>
      intro i _
      apply List.indexOf_get
    case right_inv =>
      intro k hk
      have hki : k < L.length := by rw [hlen]; exact Finset.mem_range.mp hk
      have := List.get_indexOf hnd ⟨k, hki⟩
      simpa using this
    case h =>
      intro i _
      rfl
  rw [hbij]
  have htel : ∑ k ∈ Finset.range n, marginalContribution n v L k =
      v ((L.take n).toFinset) - v ((L.take 0).toFinset) := by
    unfold marginalContribution
    exact Finset.sum_range_sub (fun k => v ((L.take k).toFinset)) n
  rw [htel]
  have htake : L.take n = L := List.take_of_length_le (le_of_eq hlen)
  rw [htake, List.take_zero, List.toFinset_nil,
    toFinset_of_perm_finRange n L hp]

lemma finset_sum_map_sum {ι β : Type} (s : Finset ι) (l : List β)
    (f : ι → β → ℚ) :
    ∑ a ∈ s, (l.map (f a)).sum = (l.map (fun b => ∑ a ∈ s, f a b)).sum := by
  induction l with
  | nil => simp
  | cons b bs ih =>
    simp [List.map_cons, List.sum_cons, Finset.sum_add_distrib, ih]

lemma buildSingleVector_eq_spec (names : List String) (means : List ℚ)
    (user_data : List (String × ℚ)) (h : names.length = means.length)
    (hkeys : (user_data.map Prod.fst).Nodup) :
    buildSingleVector names means user_data =
      specBuildVector names means user_data := by
  have hlb : (buildSingleVector names means user_data).length = means.length :=
    length_buildSingleVector names means user_data h
  have hls : (specBuildVector names means user_data).length = means.length := by
    simp [specBuildVector, h]
  apply List.ext_get (by rw [hlb, hls])
  intro i h1 h2
  rw [hlb] at h1
  have hspec : (specBuildVector names means user_data).get ⟨i, h2⟩ =
      (lookupVal (names.get ⟨i, by rw [h]; exact h1⟩) user_data).getD
        (means.get ⟨i, h1⟩) := by
    simp only [specBuildVector, List.get_eq_getElem, List.getElem_map,
      List.getElem_zip]
  rw [hspec]
  exact getElem_buildSingleVector names means user_data h hkeys i h1

lemma buildSingleVector_ignores_unknown (names : List String) (means : List ℚ)
    (user_data : List (String × ℚ)) (k : String) (v : ℚ) (hk : k ∉ names) :
    buildSingleVector names means (user_data ++ [(k, v)]) =
      buildSingleVector names means user_data := by
  unfold buildSingleVector
  rw [List.foldl_append]
  simp [setColumn, hk]

end CorporateRisk

namespace CorporateRisk

/-- C2: For every raw input with unique keys, the single-scoring vector
builder agrees position-by-position with the spec's description
(`rawInput[name_i]` when supplied, else the scaler mean), its output length
and order match the schema, and keys absent from the schema are ignored
without error. -/
theorem claim_C2_vector_builder (names : List String) (means : List ℚ)
    (user_data : List (String × ℚ)) (h : names.length = means.length)
    (hkeys : (user_data.map Prod.fst).Nodup) :
    buildSingleVector names means user_data =
        specBuildVector names means user_data ∧
      (buildSingleVector names means user_data).length = names.length ∧
      ∀ k v, k ∉ names →
        buildSingleVector names means (user_data ++ [(k, v)]) =
          buildSingleVector names means user_data := by
  refine ⟨buildSingleVector_eq_spec names means user_data h hkeys, ?_, ?_⟩
  · rw [length_buildSingleVector names means user_data h, h]
  · intro k v hk
    exact buildSingleVector_ignores_unknown names means user_data k v hk

/-- Witness for C2 at a concrete schema and raw input. -/
theorem claim_C2_vector_builder_witness :
    (["a", "b", "c"] : List String).length = ([1, 2, 3] : List ℚ).length ∧
      (([("b", (10 : ℚ)), ("z", 9)]).map Prod.fst).Nodup ∧
      (buildSingleVector ["a", "b", "c"] [1, 2, 3] [("b", 10), ("z", 9)] =
          specBuildVector ["a", "b", "c"] [1, 2, 3] [("b", 10), ("z", 9)] ∧
        (buildSingleVector ["a", "b", "c"] [1, 2, 3]
            [("b", 10), ("z", 9)]).length = (["a", "b", "c"] : List String).length ∧
        ∀ k v, k ∉ (["a", "b", "c"] : List String) →
          buildSingleVector ["a", "b", "c"] [1, 2, 3]
              ([("b", 10), ("z", 9)] ++ [(k, v)]) =
            buildSingleVector ["a", "b", "c"] [1, 2, 3] [("b", 10), ("z", 9)]) :=
  ⟨by decide, by decide,
    claim_C2_vector_builder ["a", "b", "c"] [1, 2, 3] [("b", 10), ("z", 9)]
      (by decide) (by decide)⟩

/-- C3: classification uses a strict greater-than comparison against the
fixed threshold 0.40, in both the single path (`prediction_class`) and the
batch path (`statusOf`); a probability exactly equal to 0.40 classifies as
Stable. -/
theorem claim_C3_strict_threshold :
    (∀ p : ℚ, prediction_class p = true ↔ p > 0.40) ∧
      (∀ p : ℚ, statusOf p = "HIGH RISK" ↔ p > 0.40) ∧
      (∀ p : ℚ, statusOf p = "Stable" ↔ ¬(p > 0.40)) ∧
      prediction_class 0.40 = false ∧ statusOf 0.40 = "Stable" ∧
      THRESHOLD = 0.40 := by
  refine ⟨?_, ?_, ?_, ?_, ?_, rfl⟩
  · intro p
    simp [prediction_class, THRESHOLD]
  · intro p
    unfold statusOf THRESHOLD
    split
    · next hp => simpa using hp
    · next hp =>
      constructor
      · intro hcontra
        exact absurd hcontra (by decide)
      · intro hgt
        exact absurd hgt (by simpa using hp)
  · intro p
    unfold statusOf THRESHOLD
    split
    · next hp =>
      constructor
      · intro hcontra
        exact absurd hcontra (by decide)
      · intro hng
        exact absurd (by simpa using hp) hng
    · next hp => simpa using hp
  · have hlt : ¬((0.40 : ℚ) > THRESHOLD) := by
      unfold THRESHOLD
      exact lt_irrefl _
    simp [prediction_class, hlt]
  · have hlt : ¬((0.40 : ℚ) > THRESHOLD) := by
      unfold THRESHOLD
      exact lt_irrefl _
    simp [statusOf, hlt]

/-- C4: batch alignment equals the spec's description (mean-seeded matrix,
matched table columns overwritten across all rows, unmatched schema features
left at their default), the matrix fed to the model has one row per input row
with exactly the schema's features, and the per-row results carry the
original row data through in input row order (`id`s `1..N` in order). -/
theorem claim_C4_batch_alignment (names : List String) (means : List ℚ)
    (tcols : List String) (trows : List (List ℚ)) (probabilities : List ℚ)
    (h : names.length = means.length) (hcols : tcols.Nodup) :
    alignBatch names means tcols trows =
        specAlignBatch names means tcols trows ∧
      (alignBatch names means tcols trows).length = trows.length ∧
      (∀ r, r < trows.length →
        ((alignBatch names means tcols trows).getD r []).length =
          names.length) ∧
      (batchResults trows probabilities).map RowResult.data = trows ∧
      (batchResults trows probabilities).map RowResult.id =
        (List.range trows.length).map (fun i => i + 1) := by
  obtain ⟨h1, h2, _⟩ := alignBatch_facts names means tcols trows h hcols
  exact ⟨alignBatch_eq_spec names means tcols trows h hcols, h1, h2,
    batchResults_data trows probabilities, batchResults_ids trows probabilities⟩

/-- Witness for C4 at a concrete schema and table. -/
theorem claim_C4_batch_alignment_witness :
    (["a", "b"] : List String).length = ([1, 2] : List ℚ).length ∧
      (["b", "x"] : List String).Nodup ∧
      (alignBatch ["a", "b"] [1, 2] ["b", "x"] [[5, 7], [6, 8]] =
          specAlignBatch ["a", "b"] [1, 2] ["b", "x"] [[5, 7], [6, 8]] ∧
        (alignBatch ["a", "b"] [1, 2] ["b", "x"]
            [[5, 7], [6, 8]]).length = ([[5, 7], [6, 8]] : List (List ℚ)).length ∧
        (∀ r, r < ([[5, 7], [6, 8]] : List (List ℚ)).length →
          ((alignBatch ["a", "b"] [1, 2] ["b", "x"]
              [[5, 7], [6, 8]]).getD r []).length =
            (["a", "b"] : List String).length) ∧
        (batchResults [[5, 7], [6, 8]] [1/2, 1/4]).map RowResult.data =
          ([[5, 7], [6, 8]] : List (List ℚ)) ∧
        (batchResults [[5, 7], [6, 8]] [1/2, 1/4]).map RowResult.id =
          (List.range ([[5, 7], [6, 8]] : List (List ℚ)).length).map
            (fun i => i + 1)) :=
  ⟨by decide, by decide,
    claim_C4_batch_alignment ["a", "b"] [1, 2] ["b", "x"] [[5, 7], [6, 8]]
      [1/2, 1/4] (by decide) (by decide)⟩

/-- C5: the batch summary satisfies `totalCount = N`, `highRiskCount` counts
exactly the rows flagged HIGH RISK, `stableCount = N − highRiskCount` (so the
two counts add up to `N`), and `averageRisk` is the arithmetic mean of the
row probabilities (for a nonempty batch; the mean of zero rows is NaN,
settled separately). -/
theorem claim_C5_batch_summary (trows : List (List ℚ))
    (probabilities : List ℚ) (hN : probabilities.length = trows.length) :
    (batchSummary trows probabilities).totalCompanies = trows.length ∧
      (batchSummary trows probabilities).highRiskCount =
        ((batchResults trows probabilities).filter
          (fun r => r.status = "HIGH RISK")).length ∧
      (batchSummary trows probabilities).stableCount =
        trows.length - (batchSummary trows probabilities).highRiskCount ∧
      (batchSummary trows probabilities).highRiskCount +
          (batchSummary trows probabilities).stableCount = trows.length ∧
      (0 < trows.length →
        (batchSummary trows probabilities).averageRisk =
          some (probabilities.sum / (trows.length : ℚ))) := by
  have hlen := batchResults_length trows probabilities
  have hcount : (batchResults trows probabilities).countP
      (fun r => r.status = "HIGH RISK") ≤ trows.length := by
    rw [← hlen]
    exact List.countP_le_length _
  refine ⟨hlen, ?_, ?_, ?_, ?_⟩
  · exact List.countP_eq_length_filter _ _
  · show (batchResults trows probabilities).length - _ = _
    rw [hlen]
    rfl
  · show (batchResults trows probabilities).countP _ +
      ((batchResults trows probabilities).length - _) = _
    rw [hlen]
    omega
  · intro hpos
    show npMean probabilities = _
    unfold npMean
    rw [if_neg (by omega), hN]

/-- Witness for C5 at a concrete two-row batch. -/
theorem claim_C5_batch_summary_witness :
    ([1/2, 1/4] : List ℚ).length = ([[5], [6]] : List (List ℚ)).length ∧
      ((batchSummary [[5], [6]] [1/2, 1/4]).totalCompanies =
          ([[5], [6]] : List (List ℚ)).length ∧
        (batchSummary [[5], [6]] [1/2, 1/4]).highRiskCount =
          ((batchResults [[5], [6]] [1/2, 1/4]).filter
            (fun r => r.status = "HIGH RISK")).length ∧
        (batchSummary [[5], [6]] [1/2, 1/4]).stableCount =
          ([[5], [6]] : List (List ℚ)).length -
            (batchSummary [[5], [6]] [1/2, 1/4]).highRiskCount ∧
        (batchSummary [[5], [6]] [1/2, 1/4]).highRiskCount +
            (batchSummary [[5], [6]] [1/2, 1/4]).stableCount =
          ([[5], [6]] : List (List ℚ)).length ∧
        (0 < ([[5], [6]] : List (List ℚ)).length →
          (batchSummary [[5], [6]] [1/2, 1/4]).averageRisk =
            some (([1/2, 1/4] : List ℚ).sum /
              (([[5], [6]] : List (List ℚ)).length : ℚ)))) :=
  ⟨by decide, claim_C5_batch_summary [[5], [6]] [1/2, 1/4] (by decide)⟩

/-- C9 counterexample: on a zero-row batch the summary carries the propagated
NaN mean (modelled `none`) as `averageRisk`.  There is no explicit zero-row
branch in `predict_batch` producing a defined no-data value, refuting the
claim's "handled explicitly as a defined no-data result rather than ...
propagating NaN". -/
theorem claim_C9_counterexample :
    (batchSummary ([] : List (List ℚ)) ([] : List ℚ)).totalCompanies = 0 ∧
      (batchSummary ([] : List (List ℚ)) ([] : List ℚ)).averageRisk =
        none :=
  ⟨rfl, rfl⟩

/-- C9 amended: a zero-row batch yields `totalCount = 0` and `averageRisk`
NaN (`none`); the NaN mean is propagated into the summary — the zero-row
case is not replaced by an explicit no-data result. -/
theorem claim_C9_empty_batch (trows : List (List ℚ))
    (probabilities : List ℚ) (h0 : trows = [])
    (hN : probabilities.length = trows.length) :
    (batchSummary trows probabilities).totalCompanies = 0 ∧
      (batchSummary trows probabilities).averageRisk = none := by
  subst h0
  have hp : probabilities = [] :=
    List.eq_nil_of_length_eq_zero (by simpa using hN)
  subst hp
  exact ⟨rfl, rfl⟩

/-- Witness for the amended C9 at the empty batch. -/
theorem claim_C9_empty_batch_witness :
    ([] : List (List ℚ)) = [] ∧
      ([] : List ℚ).length = ([] : List (List ℚ)).length ∧
      ((batchSummary ([] : List (List ℚ)) ([] : List ℚ)).totalCompanies = 0 ∧
        (batchSummary ([] : List (List ℚ)) ([] : List ℚ)).averageRisk =
          none) :=
  ⟨rfl, rfl, claim_C9_empty_batch [] [] rfl rfl⟩

/-- C6 counterexample: the single-scoring response returns the heuristic
impacts under the plain `featureImpacts` key; no `ApproximateAttribution`
tag appears anywhere in the response object, refuting the claim's "carries a
distinct ApproximateAttribution tag". -/
theorem claim_C6_counterexample :
    "ApproximateAttribution" ∉ predictSingleResponseKeys := by
  decide

/-- C6 amended: each reported impact is `(rawValue − mean) * 0.1`, computed
only for schema features the caller explicitly supplied, ordered by absolute
impact descending and truncated to 5 — but the response labels them with the
plain `featureImpacts` key, with no distinct `ApproximateAttribution` tag. -/
theorem claim_C6_fallback_attribution (names : List String) (means : List ℚ)
    (user_data : List (String × ℚ)) (hnd : names.Nodup) :
    (∀ imp ∈ topImpacts names means user_data,
      imp.feature ∈ names ∧
        lookupVal imp.feature user_data = some imp.value ∧
        imp.impact =
          (imp.value - means.getD (idxOfStr imp.feature names) 0) * 0.1) ∧
      (topImpacts names means user_data).Pairwise
        (fun a b => |b.impact| ≤ |a.impact|) ∧
      (topImpacts names means user_data).length ≤ 5 ∧
      "featureImpacts" ∈ predictSingleResponseKeys ∧
      "ApproximateAttribution" ∉ predictSingleResponseKeys := by
  refine ⟨?_, ?_, ?_, by decide, by decide⟩
  · intro imp hmem
    have h1 : imp ∈ sortImpacts (feature_impacts names means user_data) :=
      List.take_subset _ _ hmem
    have h2 : imp ∈ feature_impacts names means user_data :=
      (List.mergeSort_perm _ _).mem_iff.mp h1
    exact mem_feature_impacts names means user_data hnd imp h2
  · have hsorted : (sortImpacts (feature_impacts names means
        user_data)).Pairwise
        (fun a b => decide (|b.impact| ≤ |a.impact|) = true) := by
      apply List.sorted_mergeSort
      · intro a b c hab hbc
        simp only [decide_eq_true_eq] at hab hbc ⊢
        exact le_trans hbc hab
      · intro a b
        simp only [Bool.or_eq_true, decide_eq_true_eq]
        exact le_total _ _
    have htake : (topImpacts names means user_data).Pairwise
        (fun a b => decide (|b.impact| ≤ |a.impact|) = true) :=
      hsorted.sublist (List.take_sublist _ _)
    exact htake.imp (fun hab => by simpa using hab)
  · unfold topImpacts
    rw [List.length_take]
    exact min_le_left _ _

/-- Witness for the amended C6 at a concrete schema and raw input. -/
theorem claim_C6_fallback_attribution_witness :
    (["a", "b"] : List String).Nodup ∧
      ((∀ imp ∈ topImpacts ["a", "b"] [1, 2] [("b", 10)],
        imp.feature ∈ (["a", "b"] : List String) ∧
          lookupVal imp.feature [("b", 10)] = some imp.value ∧
          imp.impact = (imp.value -
            ([1, 2] : List ℚ).getD (idxOfStr imp.feature ["a", "b"]) 0)
            * 0.1) ∧
        (topImpacts ["a", "b"] [1, 2] [("b", 10)]).Pairwise
          (fun a b => |b.impact| ≤ |a.impact|) ∧
        (topImpacts ["a", "b"] [1, 2] [("b", 10)]).length ≤ 5 ∧
        "featureImpacts" ∈ predictSingleResponseKeys ∧
        "ApproximateAttribution" ∉ predictSingleResponseKeys) :=
  ⟨by decide,
    claim_C6_fallback_attribution ["a", "b"] [1, 2] [("b", 10)] (by decide)⟩

/-- C7 counterexample: in the backend's `predict_single`, scoring succeeds
(probability `1/2`) but the attribution step throws — and the caller receives
only the error, not the scoring output, because one `try/except` wraps both
pipelines.  This refutes the claim for the backend component. -/
theorem claim_C7_counterexample :
    predict_single_flow (Except.ok (1/2 : ℚ))
        (fun _ => Except.error "shap failed") =
      Except.error "shap failed" :=
  rfl

/-- C7 amended: in the dashboard's single simulator, an attribution failure
is confined to its own handler — the probability and status are rendered
regardless, with an explicit warning carrying the underlying error message
and no chart; in the backend API the request-level handler returns only the
error, suppressing the scoring result. -/
theorem claim_C7_attribution_nonblocking (p : ℚ) (e : String) :
    (render_single p (Except.error e)).probability = p ∧
      (render_single p (Except.error e)).isHighRisk = prediction_class p ∧
      (render_single p (Except.error e)).warning =
        some ("Could not generate SHAP explanation: " ++ e) ∧
      (render_single p (Except.error e)).shapChart = none ∧
      (∀ imps : List FeatureImpact,
        predict_single_flow (Except.ok p) (fun _ => Except.ok imps) =
          Except.ok { probability := p
                      isHighRisk := prediction_class p
                      threshold := THRESHOLD
                      featureImpacts := imps }) ∧
      (predict_single_flow (Except.ok p) (fun _ => Except.error e) =
        Except.error e) :=
  ⟨rfl, rfl, rfl, rfl, fun _ => rfl, rfl⟩

/-- C8: with no model artifact loaded, both scoring endpoints answer the
`Model not loaded` error with HTTP 500 without running any scoring body (the
result is independent of the body), and the dashboard stops at startup with
an error message before any scoring code is reachable. -/
theorem claim_C8_model_unavailable {M : Type} :
    (∀ body : M → Except String SingleResponse,
      predict_single_route (none : Option M) body =
        RouteResult.err 500 "Model not loaded") ∧
      (∀ body : M → Except String (List RowResult × BatchSummary),
        predict_batch_route (none : Option M) body =
          RouteResult.err 500 "Model not loaded") ∧
      (∀ body1 body2 : M → Except String SingleResponse,
        predict_single_route (none : Option M) body1 =
          predict_single_route (none : Option M) body2) ∧
      (∀ e : String,
        dashboard_start (Except.error e : Except String M) =
          AppState.stopped
            "⚠️ Model file not found. Ensure 'models/financial_risk_model.pkl' is in the directory.") :=
  ⟨fun _ => rfl, fun _ => rfl, fun _ _ => rfl, fun _ => rfl⟩

/-- C1: the exact tree-ensemble Shapley attribution satisfies the efficiency
property — for every coalition-value function (every scored vector), the sum
of all per-feature impacts equals the predicted probability minus the
baseline probability exactly, hence in particular within 1e-6 relative
tolerance. -/
theorem claim_C1_shap_efficiency (n : ℕ) (v : Finset (Fin n) → ℚ) :
    ∑ i : Fin n, shapleyValue n v i = v Finset.univ - v ∅ ∧
      |(∑ i : Fin n, shapleyValue n v i) - (v Finset.univ - v ∅)| ≤
        1 / 1000000 * |v Finset.univ - v ∅| := by
  have hmain : ∑ i : Fin n, shapleyValue n v i = v Finset.univ - v ∅ := by
    unfold shapleyValue
    rw [← Finset.sum_div, finset_sum_map_sum]
    have hmap : ((List.finRange n).permutations.map
        (fun L => ∑ i : Fin n, marginalContribution n v L (L.indexOf i))) =
        ((List.finRange n).permutations.map
          (fun _ => v Finset.univ - v ∅)) :=
      List.map_congr_left (fun L hL =>
        sum_marginal_perm n v L (List.mem_permutations.mp hL))
    rw [hmap,
      show ((List.finRange n).permutations.map
          (fun _ => v Finset.univ - v ∅)) =
        List.replicate (List.finRange n).permutations.length
          (v Finset.univ - v ∅) from List.map_const _ _,
      List.sum_replicate, List.length_permutations, List.length_finRange,
      nsmul_eq_mul]
    have hfac : ((n.factorial : ℚ)) ≠ 0 :=
      Nat.cast_ne_zero.mpr (Nat.factorial_pos n).ne'
    exact mul_div_cancel_left₀ _ hfac
  refine ⟨hmain, ?_⟩
  rw [hmain, sub_self, abs_zero]
  positivity

/-- C10: the health endpoint answers HTTP 200 with status `healthy` for
every state of the service; model availability is visible only in the
`model_loaded` boolean, never in the status field or the HTTP code. -/
theorem claim_C10_health_check (model_loaded : Bool) :
    (health_check model_loaded).1 = 200 ∧
      (health_check model_loaded).2.status = "healthy" ∧
      (health_check model_loaded).2.model_loaded = model_loaded ∧
      (health_check true).1 = (health_check false).1 ∧
      (health_check true).2.status = (health_check false).2.status :=
  ⟨rfl, rfl, rfl, rfl, rfl⟩

end CorporateRisk
